import Mathlib

/-! Shallow embedding of the GastoTrack persistence layer (`src/database.py`)
and its pure helpers (`src/utils.py`), with theorems settling the frozen
claims about them.

Modelling conventions:
* SQL `REAL` amounts are modelled as `ℚ`; the claims are about exact
  comparisons and sums, no floating-point rounding is at stake.
* ISO `YYYY-MM-DD` date strings are modelled as `Int` day numbers: SQLite
  compares `TEXT` dates byte-wise, which on ISO-formatted strings coincides
  with chronological order.  A stored date string is never empty, so the
  Python truthiness check `not date` is identically false in the model.
* `CURRENT_TIMESTAMP` values are modelled as `Nat` clock values supplied by
  the caller (`now`); their text form also sorts chronologically.
* A Python `ValueError` raised by a repository function is modelled as
  `Except.error`: `DBError.validationError` for the up-front field checks,
  `DBError.notFoundError` for the `rowcount == 0` checks.
* `sqlite3` autoincrement ids are modelled by `nextExpenseId` /
  `nextBudgetId` counters; `AUTOINCREMENT` guarantees a fresh id strictly
  larger than every id ever handed out.
* A read that fails inside `pandas.read_sql_query` is modelled by the
  `readFails` flag of the read operations (the Python code swallows the
  exception and returns an empty frame / the fallback list).
-/

namespace GastoTrack

/-- A row of the `expenses` table created by `init_db` in `src/database.py`. -/
structure Expense where
  id : Nat
  description : String
  amount : ℚ
  category : String
  date : Int
  notes : Option String
  created_at : Nat
deriving DecidableEq

/-- A row of the `budgets` table created by `init_db` in `src/database.py`;
`category` carries a `UNIQUE` constraint. -/
structure Budget where
  id : Nat
  category : String
  amount : ℚ
  period : String
  description : Option String
  created_at : Nat
  updated_at : Nat
deriving DecidableEq

/-- The whole database file: both tables plus the autoincrement counters. -/
structure DB where
  expenses : List Expense
  budgets : List Budget
  nextExpenseId : Nat
  nextBudgetId : Nat
deriving DecidableEq

/-- The two `ValueError` flavours raised by `src/database.py`. -/
inductive DBError where
  | validationError
  | notFoundError
deriving DecidableEq

/-- `init_db`: fresh empty database, autoincrement counters start at 1. -/
def init_db : DB := ⟨[], [], 1, 1⟩

/-- Commit-or-rollback: a raised error leaves the stored data unchanged. -/
def commit (r : Except DBError DB) (db : DB) : DB :=
  match r with
  | .ok db' => db'
  | .error _ => db

/-- `add_expense` from `src/database.py`: validates, then inserts a fresh row
at the end of the table with a new autoincrement id and `created_at = now`. -/
def add_expense (description : String) (amount : ℚ) (category : String)
    (date : Int) (notes : Option String) (now : Nat) (db : DB) :
    Except DBError DB :=
  if description = "" ∨ amount ≤ 0 ∨ category = "" then
    .error .validationError
  else
    .ok { db with
      expenses := db.expenses ++
        [⟨db.nextExpenseId, description, amount, category, date, notes, now⟩],
      nextExpenseId := db.nextExpenseId + 1 }

/-- `update_expense` from `src/database.py`: validates, runs the `UPDATE`
statement on every row matching the id, and raises when `rowcount == 0`. -/
def update_expense (expense_id : Nat) (description : String) (amount : ℚ)
    (category : String) (date : Int) (notes : Option String) (db : DB) :
    Except DBError DB :=
  if description = "" ∨ amount ≤ 0 ∨ category = "" then
    .error .validationError
  else if ∀ e ∈ db.expenses, e.id ≠ expense_id then
    .error .notFoundError
  else
    .ok { db with
      expenses := db.expenses.map (fun e =>
        if e.id = expense_id then
          { e with description := description, amount := amount,
                   category := category, date := date, notes := notes }
        else e) }

/-- `delete_expense` from `src/database.py`: deletes the matching rows and
raises when `rowcount == 0`. -/
def delete_expense (expense_id : Nat) (db : DB) : Except DBError DB :=
  if ∀ e ∈ db.expenses, e.id ≠ expense_id then
    .error .notFoundError
  else
    .ok { db with
      expenses := db.expenses.filter (fun e => e.id ≠ expense_id) }

/-- The `ORDER BY date DESC, created_at DESC` ordering of `get_expenses`. -/
def expenseOrder (a b : Expense) : Prop :=
  b.date < a.date ∨ (b.date = a.date ∧ b.created_at ≤ a.created_at)

instance : DecidableRel expenseOrder := fun a b => by
  unfold expenseOrder; infer_instance

instance : IsTotal Expense expenseOrder := ⟨by
  intro a b; unfold expenseOrder; omega⟩

instance : IsTrans Expense expenseOrder := ⟨by
  intro a b c; unfold expenseOrder; omega⟩

/-- `get_expenses` from `src/database.py`: `SELECT * FROM expenses ORDER BY
date DESC, created_at DESC`; a failing read is swallowed and yields `[]`. -/
def get_expenses (db : DB) (readFails : Bool) : List Expense :=
  if readFails then [] else List.insertionSort expenseOrder db.expenses

/-- The hard-coded fallback category list of `get_categories`. -/
def defaultCategories : List String :=
  ["Food & Dining", "Transportation", "Shopping", "Entertainment",
   "Bills & Utilities", "Healthcare", "Travel", "Education", "Other"]

/-- `get_categories` from `src/database.py`: `SELECT DISTINCT category FROM
expenses ORDER BY category`; the fallback list is returned when the result
is empty or the read raised. -/
def get_categories (db : DB) (readFails : Bool) : List String :=
  if readFails then defaultCategories
  else
    let categories :=
      List.insertionSort (· ≤ ·) (db.expenses.map (·.category)).dedup
    if categories = [] then defaultCategories else categories

/-- `set_budget` from `src/database.py`: validates, then runs
`INSERT OR REPLACE INTO budgets (category, amount, period, description,
updated_at) VALUES (?, ?, ?, ?, CURRENT_TIMESTAMP)`.  The `REPLACE` step
deletes any row conflicting on the unique `category` and inserts a brand-new
row, so the surviving row gets a fresh autoincrement id and a fresh default
`created_at`. -/
def set_budget (category : String) (amount : ℚ) (period : String)
    (description : Option String) (now : Nat) (db : DB) : Except DBError DB :=
  if category = "" ∨ amount ≤ 0 then
    .error .validationError
  else
    .ok { db with
      budgets := db.budgets.filter (fun b => b.category ≠ category) ++
        [⟨db.nextBudgetId, category, amount, period, description, now, now⟩],
      nextBudgetId := db.nextBudgetId + 1 }

/-- `delete_budget` from `src/database.py`: deletes the matching rows and
raises when `rowcount == 0`. -/
def delete_budget (budget_id : Nat) (db : DB) : Except DBError DB :=
  if ∀ b ∈ db.budgets, b.id ≠ budget_id then
    .error .notFoundError
  else
    .ok { db with
      budgets := db.budgets.filter (fun b => b.id ≠ budget_id) }

/-- The `WHERE` clause of `get_expense_summary`: `BETWEEN` when both bounds
are supplied, a single one-sided comparison when only one is. -/
def inDateRange (start_date end_date : Option Int) (d : Int) : Bool :=
  match start_date, end_date with
  | some s, some e => s ≤ d && d ≤ e
  | some s, none => s ≤ d
  | none, some e => d ≤ e
  | none, none => true

/-- One output row of `get_expense_summary`. -/
structure SummaryRow where
  category : String
  transaction_count : Nat
  total_amount : ℚ
  avg_amount : ℚ
  min_amount : ℚ
  max_amount : ℚ
deriving DecidableEq

/-- SQL `MIN` over a group of amounts. -/
def listMin : List ℚ → ℚ
  | [] => 0
  | a :: l => l.foldl min a

/-- SQL `MAX` over a group of amounts. -/
def listMax : List ℚ → ℚ
  | [] => 0
  | a :: l => l.foldl max a

/-- The `ORDER BY total_amount DESC` ordering of `get_expense_summary`. -/
def summaryOrder (a b : SummaryRow) : Prop :=
  b.total_amount ≤ a.total_amount

instance : DecidableRel summaryOrder := fun a b => by
  unfold summaryOrder; infer_instance

instance : IsTotal SummaryRow summaryOrder := ⟨by
  intro a b; unfold summaryOrder
  exact (le_total a.total_amount b.total_amount).symm⟩

instance : IsTrans SummaryRow summaryOrder := ⟨by
  intro a b c; unfold summaryOrder
  intro h1 h2; exact le_trans h2 h1⟩

/-- The rows selected by the optional date filter of `get_expense_summary`. -/
def filterByRange (start_date end_date : Option Int) (db : DB) : List Expense :=
  db.expenses.filter (fun e => inDateRange start_date end_date e.date)

/-- The aggregate row `SELECT category, COUNT(*), SUM(amount), AVG(amount),
MIN(amount), MAX(amount) ... GROUP BY category` computes for one category. -/
def summaryRowFor (rows : List Expense) (c : String) : SummaryRow :=
  let amounts := (rows.filter (fun e => e.category = c)).map (·.amount)
  { category := c, transaction_count := amounts.length,
    total_amount := amounts.sum,
    avg_amount := amounts.sum / (amounts.length : ℚ),
    min_amount := listMin amounts, max_amount := listMax amounts }

/-- The amounts of the group `get_expense_summary` aggregates for category
`c` under the given date bounds. -/
def groupAmounts (start_date end_date : Option Int) (db : DB) (c : String) :
    List ℚ :=
  ((filterByRange start_date end_date db).filter
    (fun e => e.category = c)).map (·.amount)

/-- `get_expense_summary` from `src/database.py`. -/
def get_expense_summary (start_date end_date : Option Int) (db : DB) :
    List SummaryRow :=
  let rows := filterByRange start_date end_date db
  List.insertionSort summaryOrder
    (((rows.map (·.category)).dedup).map (summaryRowFor rows))

/-- All suffixes of a character list, longest first (the whole list down to
`[]`); used to give SQL `LIKE`'s `%` wildcard a structurally recursive
semantics. -/
def sfx : List Char → List (List Char)
  | [] => [[]]
  | c :: s => (c :: s) :: sfx s

/-- SQLite compares `LIKE` characters case-insensitively by folding ASCII
case on both sides. -/
def charEqCI (a b : Char) : Bool := a.toLower == b.toLower

/-- SQLite `LIKE` pattern matching: `%` matches any (possibly empty)
character sequence, `_` matches exactly one character, every other pattern
character matches one text character up to ASCII case. -/
def like : List Char → List Char → Bool
  | [], s => s.isEmpty
  | c :: p, s =>
    if c = '%' then (sfx s).any (like p)
    else if c = '_' then
      match s with
      | [] => false
      | _ :: s' => like p s'
    else
      match s with
      | [] => false
      | d :: s' => charEqCI c d && like p s'

/-- The pattern `f"%{search_term}%"` built by `search_expenses`. -/
def likePattern (term : String) : List Char := '%' :: (term.data ++ ['%'])

/-- One `column LIKE ?` comparison of `search_expenses`. -/
def likeMatch (term s : String) : Bool := like (likePattern term) s.data

/-- The `WHERE description LIKE ? OR notes LIKE ? OR category LIKE ?` clause;
a SQL `NULL` in `notes` makes that disjunct non-matching. -/
def rowMatches (term : String) (e : Expense) : Bool :=
  likeMatch term e.description ||
    (match e.notes with
     | none => false
     | some n => likeMatch term n) ||
    likeMatch term e.category

/-- `search_expenses` from `src/database.py`: a falsy (empty) term returns
`get_expenses()`, otherwise the `LIKE` filter runs with the same
`ORDER BY date DESC, created_at DESC` as `get_expenses`. -/
def search_expenses (term : String) (db : DB) : List Expense :=
  if term = "" then get_expenses db false
  else List.insertionSort expenseOrder (db.expenses.filter (rowMatches term))

/-- Case-insensitive character-list prefix test (spec-side notion used to
state what "contains the term as a case-insensitive substring" means). -/
def startsWithCI : List Char → List Char → Bool
  | [], _ => true
  | _ :: _, [] => false
  | a :: t, b :: s => charEqCI a b && startsWithCI t s

/-- Case-insensitive substring containment on character lists. -/
def hasSubCI (t s : List Char) : Bool := (sfx s).any (startsWithCI t)

/-- Case-insensitive substring containment on strings: the spec's reading of
one `LIKE` comparison of `search_expenses`. -/
def containsCI (term s : String) : Bool := hasSubCI term.data s.data

/-- The spec's reading of the whole search filter: some field of the expense
contains the term as a case-insensitive substring. -/
def rowContainsCI (term : String) (e : Expense) : Bool :=
  containsCI term e.description ||
    (match e.notes with
     | none => false
     | some n => containsCI term n) ||
    containsCI term e.category

/-- The record returned by `calculate_budget_status` in `src/utils.py`. -/
structure BudgetStatus where
  percentage : ℚ
  remaining : ℚ
  status : String
  color : String
deriving DecidableEq

/-- `calculate_budget_status` from `src/utils.py`. -/
def calculate_budget_status (spent_amount budget_amount : ℚ) : BudgetStatus :=
  if budget_amount ≤ 0 then
    ⟨0, 0, "No Budget Set", "gray"⟩
  else
    let percentage := spent_amount / budget_amount * 100
    let remaining := budget_amount - spent_amount
    if 100 ≤ percentage then
      ⟨min percentage 100, remaining, "Over Budget", "red"⟩
    else if 90 ≤ percentage then
      ⟨min percentage 100, remaining, "Near Limit", "orange"⟩
    else if 75 ≤ percentage then
      ⟨min percentage 100, remaining, "On Track", "yellow"⟩
    else
      ⟨min percentage 100, remaining, "Good", "green"⟩

/-- The `date` argument of `validate_expense_data`: absent/empty, present but
unparseable, or a parsed calendar day. -/
inductive DateInput where
  | missing
  | malformed
  | valid (day : Int)
deriving DecidableEq

/-- A Python string is falsy or strips to `""` exactly when every character
is whitespace (an empty string vacuously so). -/
def blankStr (s : String) : Bool := s.data.all Char.isWhitespace

/-- `validate_expense_data` from `src/utils.py`.  A missing date trips both
the truthiness check ("Date is required") and the parse attempt ("Invalid
date format"); a parsed date is range-checked against `today`. -/
def validate_expense_data (description : String) (amount : Option ℚ)
    (category : String) (date : DateInput) (today : Int) : List String :=
  (if blankStr description then ["Description is required"] else []) ++
  (match amount with
   | none => ["Amount must be greater than 0"]
   | some a => if a ≤ 0 then ["Amount must be greater than 0"] else []) ++
  (if blankStr category then ["Category is required"] else []) ++
  (match date with
   | .missing => ["Date is required", "Invalid date format"]
   | .malformed => ["Invalid date format"]
   | .valid d =>
     (if today < d then ["Date cannot be in the future"] else []) ++
     (if d < today - 3650 then ["Date seems too far in the past"] else []))

/-- The states reachable from a fresh database through the write operations
of `src/database.py` (reads do not mutate, and a raised error rolls back). -/
inductive Reachable : DB → Prop where
  | init : Reachable init_db
  | add_ok {db db' d a c dt n now} : Reachable db →
      add_expense d a c dt n now db = .ok db' → Reachable db'
  | update_ok {db db' i d a c dt n} : Reachable db →
      update_expense i d a c dt n db = .ok db' → Reachable db'
  | delete_ok {db db' i} : Reachable db →
      delete_expense i db = .ok db' → Reachable db'
  | budget_ok {db db' c a p d now} : Reachable db →
      set_budget c a p d now db = .ok db' → Reachable db'
  | budget_delete_ok {db db' i} : Reachable db →
      delete_budget i db = .ok db' → Reachable db'

/-- The structural invariant the write operations maintain: stored amounts
are positive, ids are below the autoincrement counters, and ids are unique
within each table. -/
def Inv (db : DB) : Prop :=
  (∀ e ∈ db.expenses, 0 < e.amount ∧ e.id < db.nextExpenseId) ∧
  (∀ b ∈ db.budgets, 0 < b.amount ∧ b.id < db.nextBudgetId) ∧
  (db.expenses.map (·.id)).Nodup ∧ (db.budgets.map (·.id)).Nodup

theorem nodup_map_inj {α β : Type} {f : α → β} {l : List α}
    (h : (l.map f).Nodup) {x y : α} (hx : x ∈ l) (hy : y ∈ l)
    (hf : f x = f y) : x = y :=
  List.inj_on_of_nodup_map h hx hy hf

theorem insertionSort_nil_iff {α : Type} (r : α → α → Prop) [DecidableRel r]
    (l : List α) : List.insertionSort r l = [] ↔ l = [] := by
  constructor
  · intro h
    have hp := List.perm_insertionSort r l
    rw [h] at hp
    exact (hp.symm).eq_nil
  · intro h
    rw [h]
    rfl

/-- Every state reachable through the write operations satisfies the
structural invariant `Inv`. -/
theorem reachable_inv {db : DB} (h : Reachable db) : Inv db := by
  induction h with
  | init =>
    refine ⟨?_, ?_, ?_, ?_⟩ <;> simp [init_db]
  | add_ok h heq ih =>
    rename_i db db' d a c dt n now
    obtain ⟨HE, HB, HNE, HNB⟩ := ih
    unfold add_expense at heq
    split at heq
    · exact absurd heq (by simp)
    next hvalid =>
      push_neg at hvalid
      obtain ⟨hd, ha, hc⟩ := hvalid
      cases heq
      refine ⟨?_, ?_, ?_, ?_⟩
      · intro e he
        rcases List.mem_append.mp he with he | he
        · exact ⟨(HE e he).1, Nat.lt_succ_of_lt (HE e he).2⟩
        · rcases List.mem_singleton.mp he with rfl
          exact ⟨ha, Nat.lt_succ_self _⟩
      · exact HB
      · rw [List.map_append, List.nodup_append]
        refine ⟨HNE, List.nodup_singleton _, ?_⟩
        intro x hx hx'
        simp only [List.map_cons, List.map_nil, List.mem_singleton] at hx'
        subst hx'
        rcases List.mem_map.mp hx with ⟨e, he, hex⟩
        exact absurd hex (Nat.ne_of_lt (HE e he).2)
      · exact HNB
  | update_ok h heq ih =>
    rename_i db db' i d a c dt n
    obtain ⟨HE, HB, HNE, HNB⟩ := ih
    unfold update_expense at heq
    split at heq
    · exact absurd heq (by simp)
    next hvalid =>
      push_neg at hvalid
      obtain ⟨hd, ha, hc⟩ := hvalid
      split at heq
      · exact absurd heq (by simp)
      · cases heq
        have hid : ∀ e : Expense,
            (if e.id = i then
              { e with description := d, amount := a,
                       category := c, date := dt, notes := n }
             else e).id = e.id := by
          intro e; split <;> rfl
        refine ⟨?_, HB, ?_, HNB⟩
        · intro e he
          rcases List.mem_map.mp he with ⟨x, hx, hxe⟩
          subst hxe
          split
          · exact ⟨ha, (hid x) ▸ (HE x hx).2⟩
          · exact HE x hx
        · rw [List.map_map]
          have : ((fun e : Expense => e.id) ∘ fun e : Expense =>
              if e.id = i then
                { e with description := d, amount := a,
                         category := c, date := dt, notes := n }
              else e) = fun e : Expense => e.id := by
            funext e
            exact hid e
          rw [this]
          exact HNE
  | delete_ok h heq ih =>
    rename_i db db' i
    obtain ⟨HE, HB, HNE, HNB⟩ := ih
    unfold delete_expense at heq
    split at heq
    · exact absurd heq (by simp)
    · cases heq
      refine ⟨?_, HB, ?_, HNB⟩
      · intro e he
        exact HE e (List.mem_of_mem_filter he)
      · exact ((List.filter_sublist db.expenses).map _).nodup HNE
  | budget_ok h heq ih =>
    rename_i db db' c a p d now
    obtain ⟨HE, HB, HNE, HNB⟩ := ih
    unfold set_budget at heq
    split at heq
    · exact absurd heq (by simp)
    next hvalid =>
      push_neg at hvalid
      obtain ⟨hc, ha⟩ := hvalid
      cases heq
      refine ⟨HE, ?_, HNE, ?_⟩
      · intro b hb
        rcases List.mem_append.mp hb with hb | hb
        · have := HB b (List.mem_of_mem_filter hb)
          exact ⟨this.1, Nat.lt_succ_of_lt this.2⟩
        · rcases List.mem_singleton.mp hb with rfl
          exact ⟨ha, Nat.lt_succ_self _⟩
      · rw [List.map_append, List.nodup_append]
        refine ⟨((List.filter_sublist db.budgets).map _).nodup HNB,
          List.nodup_singleton _, ?_⟩
        intro x hx hx'
        simp only [List.map_cons, List.map_nil, List.mem_singleton] at hx'
        subst hx'
        rcases List.mem_map.mp hx with ⟨b, hb, hbx⟩
        have := HB b (List.mem_of_mem_filter hb)
        exact absurd hbx (Nat.ne_of_lt this.2)
  | budget_delete_ok h heq ih =>
    rename_i db db' i
    obtain ⟨HE, HB, HNE, HNB⟩ := ih
    unfold delete_budget at heq
    split at heq
    · exact absurd heq (by simp)
    · cases heq
      refine ⟨HE, ?_, HNE, ?_⟩
      · intro b hb
        exact HB b (List.mem_of_mem_filter hb)
      · exact ((List.filter_sublist db.budgets).map _).nodup HNB

/-- C3: for every spent and budget amount, `calculate_budget_status` returns
the "No Budget Set" record with percentage 0 and remaining 0 when the budget
is non-positive; otherwise the status label is determined by the raw ratio
`spent / budget * 100` before capping (≥ 100 "Over Budget", ≥ 90 "Near
Limit", ≥ 75 "On Track", else "Good"), the returned percentage is that ratio
capped at 100, and remaining is `budget - spent`; in particular 90/100 gives
90% "Near Limit", 100/100 gives 100% "Over Budget", and 0/0 gives "No Budget
Set". -/
theorem calculate_budget_status_correct (spent_amount budget_amount : ℚ) :
    (budget_amount ≤ 0 →
      calculate_budget_status spent_amount budget_amount =
        ⟨0, 0, "No Budget Set", "gray"⟩) ∧
    (0 < budget_amount →
      (calculate_budget_status spent_amount budget_amount).percentage =
        min (spent_amount / budget_amount * 100) 100 ∧
      (calculate_budget_status spent_amount budget_amount).remaining =
        budget_amount - spent_amount ∧
      ((calculate_budget_status spent_amount budget_amount).status =
          "Over Budget" ↔ 100 ≤ spent_amount / budget_amount * 100) ∧
      ((calculate_budget_status spent_amount budget_amount).status =
          "Near Limit" ↔ 90 ≤ spent_amount / budget_amount * 100 ∧
            spent_amount / budget_amount * 100 < 100) ∧
      ((calculate_budget_status spent_amount budget_amount).status =
          "On Track" ↔ 75 ≤ spent_amount / budget_amount * 100 ∧
            spent_amount / budget_amount * 100 < 90) ∧
      ((calculate_budget_status spent_amount budget_amount).status =
          "Good" ↔ spent_amount / budget_amount * 100 < 75)) ∧
    calculate_budget_status 90 100 = ⟨90, 10, "Near Limit", "orange"⟩ ∧
    calculate_budget_status 100 100 = ⟨100, 0, "Over Budget", "red"⟩ ∧
    calculate_budget_status 0 0 = ⟨0, 0, "No Budget Set", "gray"⟩ := by
  refine ⟨?_, ?_, ?_, ?_, ?_⟩
  · intro h
    simp [calculate_budget_status, h]
  · intro h
    have h' : ¬ budget_amount ≤ 0 := not_le.mpr h
    unfold calculate_budget_status
    rw [if_neg h']
    dsimp only
    have hON : ("Over Budget" : String) ≠ "Near Limit" := by decide
    have hOT : ("Over Budget" : String) ≠ "On Track" := by decide
    have hOG : ("Over Budget" : String) ≠ "Good" := by decide
    have hNO : ("Near Limit" : String) ≠ "Over Budget" := by decide
    have hNT : ("Near Limit" : String) ≠ "On Track" := by decide
    have hNG : ("Near Limit" : String) ≠ "Good" := by decide
    have hTO : ("On Track" : String) ≠ "Over Budget" := by decide
    have hTN : ("On Track" : String) ≠ "Near Limit" := by decide
    have hTG : ("On Track" : String) ≠ "Good" := by decide
    have hGO : ("Good" : String) ≠ "Over Budget" := by decide
    have hGN : ("Good" : String) ≠ "Near Limit" := by decide
    have hGT : ("Good" : String) ≠ "On Track" := by decide
    split_ifs with h1 h2 h3
    · exact ⟨rfl, rfl,
        ⟨fun _ => h1, fun _ => rfl⟩,
        ⟨fun hs => absurd hs hON,
          fun hx => absurd h1 (not_le.mpr hx.2)⟩,
        ⟨fun hs => absurd hs hOT,
          fun hx => absurd h1 (not_le.mpr (lt_trans hx.2 (by norm_num)))⟩,
        ⟨fun hs => absurd hs hOG,
          fun hx => absurd h1 (not_le.mpr (lt_trans hx (by norm_num)))⟩⟩
    · exact ⟨rfl, rfl,
        ⟨fun hs => absurd hs hNO, fun hx => absurd hx h1⟩,
        ⟨fun _ => ⟨h2, not_le.mp h1⟩, fun _ => rfl⟩,
        ⟨fun hs => absurd hs hNT,
          fun hx => absurd h2 (not_le.mpr hx.2)⟩,
        ⟨fun hs => absurd hs hNG,
          fun hx => absurd (lt_of_le_of_lt h2 hx) (by norm_num)⟩⟩
    · exact ⟨rfl, rfl,
        ⟨fun hs => absurd hs hTO, fun hx => absurd hx h1⟩,
        ⟨fun hs => absurd hs hTN, fun hx => absurd hx.1 h2⟩,
        ⟨fun _ => ⟨h3, not_le.mp h2⟩, fun _ => rfl⟩,
        ⟨fun hs => absurd hs hTG,
          fun hx => absurd (lt_of_le_of_lt h3 hx) (by norm_num)⟩⟩
    · exact ⟨rfl, rfl,
        ⟨fun hs => absurd hs hGO, fun hx => absurd hx h1⟩,
        ⟨fun hs => absurd hs hGN, fun hx => absurd hx.1 h2⟩,
        ⟨fun hs => absurd hs hGT, fun hx => absurd hx.1 h3⟩,
        ⟨fun _ => not_le.mp h3, fun _ => rfl⟩⟩
  · unfold calculate_budget_status
    norm_num
  · unfold calculate_budget_status
    norm_num
  · unfold calculate_budget_status
    norm_num

/-- Witness for C3 at concrete inputs. -/
theorem calculate_budget_status_correct_witness :
    calculate_budget_status 0 0 = ⟨0, 0, "No Budget Set", "gray"⟩ ∧
    (calculate_budget_status 50 200).status = "Good" :=
  ⟨(calculate_budget_status_correct 0 0).1 (by norm_num),
    (((calculate_budget_status_correct 50 200).2.1
      (by norm_num)).2.2.2.2.2).mpr (by norm_num)⟩

/-- C4: `validate_expense_data` returns the complete list of violated rules
instead of failing fast: each error message is present exactly when its rule
is violated (blank description, missing or non-positive amount, blank
category, missing/unparseable date, date after today, date more than 3650
days before today); it rejects amount 0 and negative amounts, a date one day
in the future, and a date 3651 days in the past, and accepts amount 0.01, a
date equal to today, and a date exactly 3650 days in the past. -/
theorem validate_expense_data_correct (description : String)
    (amount : Option ℚ) (category : String) (date : DateInput) (today : Int) :
    ("Description is required" ∈
        validate_expense_data description amount category date today ↔
      blankStr description = true) ∧
    ("Amount must be greater than 0" ∈
        validate_expense_data description amount category date today ↔
      amount = none ∨ ∃ a, amount = some a ∧ a ≤ 0) ∧
    ("Category is required" ∈
        validate_expense_data description amount category date today ↔
      blankStr category = true) ∧
    (("Date is required" ∈
        validate_expense_data description amount category date today ∨
      "Invalid date format" ∈
        validate_expense_data description amount category date today) ↔
      date = .missing ∨ date = .malformed) ∧
    ("Date cannot be in the future" ∈
        validate_expense_data description amount category date today ↔
      ∃ d, date = .valid d ∧ today < d) ∧
    ("Date seems too far in the past" ∈
        validate_expense_data description amount category date today ↔
      ∃ d, date = .valid d ∧ d < today - 3650) ∧
    validate_expense_data "x" (some (1/100)) "Food" (.valid today) today
      = [] ∧
    validate_expense_data "x" (some (1/100)) "Food" (.valid (today - 3650))
      today = [] ∧
    validate_expense_data "x" (some 0) "Food" (.valid today) today =
      ["Amount must be greater than 0"] ∧
    validate_expense_data "x" (some (-5)) "Food" (.valid today) today =
      ["Amount must be greater than 0"] ∧
    validate_expense_data "x" (some 1) "Food" (.valid (today + 1)) today =
      ["Date cannot be in the future"] ∧
    validate_expense_data "x" (some 1) "Food" (.valid (today - 3651)) today =
      ["Date seems too far in the past"] ∧
    validate_expense_data "" none "" .missing today =
      ["Description is required", "Amount must be greater than 0",
       "Category is required", "Date is required", "Invalid date format"] := by
  have hx : blankStr "x" = false := by decide
  have hf : blankStr "Food" = false := by decide
  have he : blankStr "" = true := by decide
  refine ⟨?_, ?_, ?_, ?_, ?_, ?_, ?_, ?_, ?_, ?_, ?_, ?_, ?_⟩
  · unfold validate_expense_data
    rcases date with _ | _ | d <;> rcases amount with _ | a <;>
      split_ifs <;> simp_all
  · unfold validate_expense_data
    rcases date with _ | _ | d <;> rcases amount with _ | a <;>
      split_ifs <;> simp_all
  · unfold validate_expense_data
    rcases date with _ | _ | d <;> rcases amount with _ | a <;>
      split_ifs <;> simp_all
  · unfold validate_expense_data
    rcases date with _ | _ | d <;> rcases amount with _ | a <;>
      split_ifs <;> simp_all
  · unfold validate_expense_data
    rcases date with _ | _ | d <;> rcases amount with _ | a <;>
      split_ifs <;> simp_all
  · unfold validate_expense_data
    rcases date with _ | _ | d <;> rcases amount with _ | a <;>
      split_ifs <;> simp_all
  · unfold validate_expense_data
    rw [hx, hf]
    norm_num
  · unfold validate_expense_data
    rw [hx, hf]
    norm_num
  · unfold validate_expense_data
    rw [hx, hf]
    norm_num
  · unfold validate_expense_data
    rw [hx, hf]
    norm_num
  · unfold validate_expense_data
    rw [hx, hf]
    norm_num
    omega
  · unfold validate_expense_data
    rw [hx, hf]
    norm_num
  · unfold validate_expense_data
    rw [he]
    norm_num

theorem filter_eq_of_filter_ne (l : List Budget) (c : String) :
    (l.filter (fun b => b.category ≠ c)).filter
      (fun b => b.category = c) = [] := by
  induction l with
  | nil => rfl
  | cons x t ih =>
    by_cases hx : x.category = c
    · simp [List.filter_cons, hx, ih]
    · simp [List.filter_cons, hx, ih]

/-- C1: a budget upsert with an empty category or non-positive amount fails
with a validation error and writes nothing; otherwise it succeeds and
afterwards exactly one budget row exists for that category, carrying the
call's amount, period and description, with `updated_at` refreshed to the
time of the call. -/
theorem set_budget_upsert (category : String) (amount : ℚ) (period : String)
    (description : Option String) (now : Nat) (db : DB) :
    (category = "" ∨ amount ≤ 0 →
      set_budget category amount period description now db =
        .error .validationError ∧
      commit (set_budget category amount period description now db) db = db) ∧
    (category ≠ "" → 0 < amount →
      ∃ db', set_budget category amount period description now db = .ok db' ∧
        db'.budgets.filter (fun b => b.category = category) =
          [⟨db.nextBudgetId, category, amount, period, description,
            now, now⟩] ∧
        db'.budgets.countP (fun b => b.category = category) = 1) := by
  constructor
  · intro h
    have herr : set_budget category amount period description now db =
        .error .validationError := by
      unfold set_budget
      rw [if_pos h]
    refine ⟨herr, ?_⟩
    rw [herr]
    rfl
  · intro hc ha
    have hcond : ¬ (category = "" ∨ amount ≤ 0) := by
      push_neg
      exact ⟨hc, ha⟩
    have hok : set_budget category amount period description now db =
        .ok { db with
          budgets := db.budgets.filter (fun b => b.category ≠ category) ++
            [⟨db.nextBudgetId, category, amount, period, description,
              now, now⟩],
          nextBudgetId := db.nextBudgetId + 1 } := by
      unfold set_budget
      rw [if_neg hcond]
    have hfilter : (db.budgets.filter (fun b => b.category ≠ category) ++
        [(⟨db.nextBudgetId, category, amount, period, description,
          now, now⟩ : Budget)]).filter (fun b => b.category = category) =
        [⟨db.nextBudgetId, category, amount, period, description,
          now, now⟩] := by
      rw [List.filter_append, filter_eq_of_filter_ne]
      simp
    refine ⟨_, hok, hfilter, ?_⟩
    rw [List.countP_eq_length_filter, hfilter]
    rfl

/-- Witness for C1: the validation failure at an empty category, and a
successful upsert on a fresh database. -/
theorem set_budget_upsert_witness :
    set_budget "" 100 "Monthly" none 0 init_db = .error .validationError ∧
    ∃ db', set_budget "Food" 100 "Monthly" none 0 init_db = .ok db' ∧
      db'.budgets.filter (fun b => b.category = "Food") =
        [⟨1, "Food", 100, "Monthly", none, 0, 0⟩] ∧
      db'.budgets.countP (fun b => b.category = "Food") = 1 :=
  ⟨((set_budget_upsert "" 100 "Monthly" none 0 init_db).1 (Or.inl rfl)).1,
    (set_budget_upsert "Food" 100 "Monthly" none 0 init_db).2
      (by decide) (by norm_num)⟩

/-- C2: in every reachable store state all stored expense and budget amounts
are strictly positive, and insert, update and upsert each reject a
non-positive amount with a validation error before writing. -/
theorem stored_amounts_positive (db : DB) (h : Reachable db) :
    (∀ e ∈ db.expenses, 0 < e.amount) ∧
    (∀ b ∈ db.budgets, 0 < b.amount) ∧
    (∀ d (a : ℚ) c dt n now, a ≤ 0 →
      add_expense d a c dt n now db = .error .validationError) ∧
    (∀ i d (a : ℚ) c dt n, a ≤ 0 →
      update_expense i d a c dt n db = .error .validationError) ∧
    (∀ c (a : ℚ) p dsc now, a ≤ 0 →
      set_budget c a p dsc now db = .error .validationError) := by
  obtain ⟨HE, HB, _, _⟩ := reachable_inv h
  refine ⟨fun e he => (HE e he).1, fun b hb => (HB b hb).1, ?_, ?_, ?_⟩
  · intro d a c dt n now ha
    unfold add_expense
    rw [if_pos (Or.inr (Or.inl ha))]
  · intro i d a c dt n ha
    unfold update_expense
    rw [if_pos (Or.inr (Or.inl ha))]
  · intro c a p dsc now ha
    unfold set_budget
    rw [if_pos (Or.inr ha)]

/-- Witness for C2 at a concrete reachable state holding one expense. -/
theorem stored_amounts_positive_witness :
    (∀ e ∈ (⟨[⟨1, "Coffee", 5, "Food", 0, none, 0⟩], [], 2, 1⟩ :
        DB).expenses, 0 < e.amount) ∧
    (∀ b ∈ (⟨[⟨1, "Coffee", 5, "Food", 0, none, 0⟩], [], 2, 1⟩ :
        DB).budgets, 0 < b.amount) ∧
    (∀ d (a : ℚ) c dt n now, a ≤ 0 →
      add_expense d a c dt n now
        ⟨[⟨1, "Coffee", 5, "Food", 0, none, 0⟩], [], 2, 1⟩ =
        .error .validationError) ∧
    (∀ i d (a : ℚ) c dt n, a ≤ 0 →
      update_expense i d a c dt n
        ⟨[⟨1, "Coffee", 5, "Food", 0, none, 0⟩], [], 2, 1⟩ =
        .error .validationError) ∧
    (∀ c (a : ℚ) p dsc now, a ≤ 0 →
      set_budget c a p dsc now
        ⟨[⟨1, "Coffee", 5, "Food", 0, none, 0⟩], [], 2, 1⟩ =
        .error .validationError) :=
  stored_amounts_positive _ (Reachable.add_ok Reachable.init
    (by rfl : add_expense "Coffee" 5 "Food" 0 none 0 init_db =
      Except.ok ⟨[⟨1, "Coffee", 5, "Food", 0, none, 0⟩], [], 2, 1⟩))

theorem filter_id_ne_perm {l : List Expense} {e : Expense} (he : e ∈ l)
    (hnd : (l.map (·.id)).Nodup) :
    List.Perm (l.filter (fun x => x.id ≠ e.id) ++ [e]) l := by
  induction l with
  | nil => cases he
  | cons x t ih =>
    rw [List.map_cons, List.nodup_cons] at hnd
    obtain ⟨hx, hnd⟩ := hnd
    rcases List.mem_cons.mp he with rfl | he'
    · have ht : t.filter (fun y => y.id ≠ e.id) = t := by
        rw [List.filter_eq_self]
        intro y hy
        simp only [ne_eq, decide_not, Bool.not_eq_eq_eq_not, Bool.not_true,
          decide_eq_false_iff_not]
        intro hco
        exact hx (hco ▸ List.mem_map_of_mem (fun z => z.id) hy)
      have hcons : (e :: t).filter (fun y => y.id ≠ e.id) = t := by
        rw [List.filter_cons, if_neg (by simp)]
        exact ht
      rw [hcons]
      exact List.perm_append_singleton e t
    · have hxne : x.id ≠ e.id := by
        intro hco
        exact hx (hco ▸ List.mem_map_of_mem (fun z => z.id) he')
      have hcons : (x :: t).filter (fun y => y.id ≠ e.id) =
          x :: t.filter (fun y => y.id ≠ e.id) := by
        rw [List.filter_cons, if_pos (by simp [hxne])]
      rw [hcons, List.cons_append]
      exact (ih he' hnd).cons x

/-- C5: update and delete on an id with no matching expense row fail with
NotFoundError (the zero row-count check) and leave the store unchanged; on
an existing id delete removes exactly that row and update replaces exactly
that row's mutable fields, keeping every other row. -/
theorem update_delete_by_id (db : DB) (expense_id : Nat)
    (description : String) (amount : ℚ) (category : String) (date : Int)
    (notes : Option String) (hd : description ≠ "") (ha : 0 < amount)
    (hc : category ≠ "") (hnd : (db.expenses.map (·.id)).Nodup) :
    ((∀ e ∈ db.expenses, e.id ≠ expense_id) →
      update_expense expense_id description amount category date notes db =
        .error .notFoundError ∧
      delete_expense expense_id db = .error .notFoundError ∧
      commit (update_expense expense_id description amount category date
        notes db) db = db ∧
      commit (delete_expense expense_id db) db = db) ∧
    (∀ e ∈ db.expenses, e.id = expense_id →
      (∃ db', delete_expense expense_id db = .ok db' ∧
        db'.budgets = db.budgets ∧
        db'.nextExpenseId = db.nextExpenseId ∧
        e ∉ db'.expenses ∧
        List.Perm (db'.expenses ++ [e]) db.expenses) ∧
      (∃ db', update_expense expense_id description amount category date
          notes db = .ok db' ∧
        db'.budgets = db.budgets ∧
        db'.nextExpenseId = db.nextExpenseId ∧
        { e with description := description, amount := amount,
                 category := category, date := date, notes := notes } ∈
          db'.expenses ∧
        (∀ x ∈ db.expenses, x.id ≠ expense_id → x ∈ db'.expenses) ∧
        db'.expenses.length = db.expenses.length)) := by
  have hvalid : ¬ (description = "" ∨ amount ≤ 0 ∨ category = "") := by
    push_neg
    exact ⟨hd, ha, hc⟩
  constructor
  · intro h
    have hupd : update_expense expense_id description amount category date
        notes db = .error .notFoundError := by
      unfold update_expense
      rw [if_neg hvalid, if_pos h]
    have hdel : delete_expense expense_id db = .error .notFoundError := by
      unfold delete_expense
      rw [if_pos h]
    exact ⟨hupd, hdel, by rw [hupd]; rfl, by rw [hdel]; rfl⟩
  · intro e he heid
    subst heid
    have hcond : ¬ ∀ x ∈ db.expenses, x.id ≠ e.id := by
      push_neg
      exact ⟨e, he, rfl⟩
    constructor
    · refine ⟨{ db with expenses :=
          db.expenses.filter (fun x => x.id ≠ e.id) },
        by unfold delete_expense; rw [if_neg hcond], rfl, rfl, ?_, ?_⟩
      · intro hmem
        have h2 := (List.mem_filter.mp hmem).2
        simp at h2
      · exact filter_id_ne_perm he hnd
    · refine ⟨{ db with expenses := db.expenses.map (fun x =>
          if x.id = e.id then
            { x with description := description, amount := amount,
                     category := category, date := date, notes := notes }
          else x) },
        by unfold update_expense; rw [if_neg hvalid, if_neg hcond],
        rfl, rfl, ?_, ?_, List.length_map _ _⟩
      · have hfe : (if e.id = e.id then
            { e with description := description, amount := amount,
                     category := category, date := date, notes := notes }
          else e) =
            { e with description := description, amount := amount,
                     category := category, date := date, notes := notes } :=
          if_pos rfl
        exact hfe ▸ List.mem_map_of_mem _ he
      · intro x hx hxne
        have hfx : (if x.id = e.id then
            { x with description := description, amount := amount,
                     category := category, date := date, notes := notes }
          else x) = x := if_neg hxne
        exact hfx ▸ List.mem_map_of_mem _ hx

/-- Witness for C5: a missing id fails, an existing id is deleted. -/
theorem update_delete_by_id_witness :
    delete_expense 7 ⟨[⟨1, "Coffee", 5, "Food", 0, none, 0⟩], [], 2, 1⟩ =
      .error .notFoundError ∧
    ∃ db', delete_expense 1
        ⟨[⟨1, "Coffee", 5, "Food", 0, none, 0⟩], [], 2, 1⟩ = .ok db' ∧
      db'.budgets = [] ∧
      db'.nextExpenseId = 2 ∧
      (⟨1, "Coffee", 5, "Food", 0, none, 0⟩ : Expense) ∉ db'.expenses ∧
      List.Perm (db'.expenses ++ [⟨1, "Coffee", 5, "Food", 0, none, 0⟩])
        [⟨1, "Coffee", 5, "Food", 0, none, 0⟩] :=
  ⟨((update_delete_by_id ⟨[⟨1, "Coffee", 5, "Food", 0, none, 0⟩], [], 2, 1⟩
      7 "Tea" 6 "Drink" 1 none (by decide) (by norm_num) (by decide)
      (by decide)).1 (by decide)).2.1,
    ((update_delete_by_id ⟨[⟨1, "Coffee", 5, "Food", 0, none, 0⟩], [], 2, 1⟩
      1 "Tea" 6 "Drink" 1 none (by decide) (by norm_num) (by decide)
      (by decide)).2 ⟨1, "Coffee", 5, "Food", 0, none, 0⟩
      (by simp) rfl).1⟩

/-- C6: `get_expenses` returns every stored expense exactly once, ordered by
date descending with ties broken by created_at descending, and returns the
empty sequence — never an error — both on an empty table and on a failing
read. -/
theorem get_expenses_ordered (db : DB) :
    List.Perm (get_expenses db false) db.expenses ∧
    List.Sorted expenseOrder (get_expenses db false) ∧
    (db.expenses = [] → get_expenses db false = []) ∧
    get_expenses db true = [] := by
  refine ⟨List.perm_insertionSort expenseOrder db.expenses,
    List.sorted_insertionSort expenseOrder db.expenses, ?_, rfl⟩
  intro h
  unfold get_expenses
  rw [h]
  rfl

/-- Witness for C6 at the empty database. -/
theorem get_expenses_ordered_witness : get_expenses init_db false = [] :=
  (get_expenses_ordered init_db).2.2.1 rfl

/-- C9: with at least one expense stored, `get_categories` returns exactly
the distinct categories present, in ascending order; on an empty table or a
failing read it returns the fixed 9-element fallback list. -/
theorem get_categories_correct (db : DB) :
    (db.expenses ≠ [] →
      (get_categories db false).Nodup ∧
      List.Sorted (· ≤ ·) (get_categories db false) ∧
      (∀ c, c ∈ get_categories db false ↔
        ∃ e ∈ db.expenses, e.category = c)) ∧
    (db.expenses = [] → get_categories db false = defaultCategories) ∧
    get_categories db true = defaultCategories ∧
    defaultCategories.length = 9 ∧
    defaultCategories = ["Food & Dining", "Transportation", "Shopping",
      "Entertainment", "Bills & Utilities", "Healthcare", "Travel",
      "Education", "Other"] := by
  refine ⟨?_, ?_, rfl, rfl, rfl⟩
  · intro h
    have hdedup : (db.expenses.map (·.category)).dedup ≠ [] := by
      intro hco
      exact h (List.map_eq_nil_iff.mp ((List.dedup_eq_nil _).mp hco))
    have hsort : List.insertionSort (· ≤ ·)
        (db.expenses.map (·.category)).dedup ≠ [] := by
      intro hco
      exact hdedup ((insertionSort_nil_iff _ _).mp hco)
    have hp := List.perm_insertionSort (· ≤ ·)
      (db.expenses.map (·.category)).dedup
    have hval : get_categories db false = List.insertionSort (· ≤ ·)
        (db.expenses.map (·.category)).dedup := by
      unfold get_categories
      simp only [Bool.false_eq_true, if_false]
      rw [if_neg hsort]
    rw [hval]
    refine ⟨hp.nodup_iff.mpr (List.nodup_dedup _),
      List.sorted_insertionSort _ _, ?_⟩
    intro c
    rw [hp.mem_iff, List.mem_dedup, List.mem_map]
  · intro h
    unfold get_categories
    rw [h]
    rfl

/-- Witness for C9 at a single-expense database. -/
theorem get_categories_correct_witness :
    (get_categories ⟨[⟨1, "Coffee", 5, "Food", 0, none, 0⟩], [], 2, 1⟩
      false).Nodup ∧
    List.Sorted (· ≤ ·)
      (get_categories ⟨[⟨1, "Coffee", 5, "Food", 0, none, 0⟩], [], 2, 1⟩
        false) ∧
    (∀ c, c ∈ get_categories
        ⟨[⟨1, "Coffee", 5, "Food", 0, none, 0⟩], [], 2, 1⟩ false ↔
      ∃ e ∈ (⟨[⟨1, "Coffee", 5, "Food", 0, none, 0⟩], [], 2, 1⟩ :
        DB).expenses, e.category = c) :=
  (get_categories_correct
    ⟨[⟨1, "Coffee", 5, "Food", 0, none, 0⟩], [], 2, 1⟩).1 (by simp)

/-- C10: a successful budget upsert on a category that already has a budget
row does not preserve that row's id or created_at: the surviving row for the
category carries the fresh autoincrement id (different from the old row's
id) and a created_at newly assigned at the time of the call, and a
subsequent delete by the pre-upsert id fails with NotFoundError. -/
theorem set_budget_fresh_id (db : DB) (b : Budget) (amount : ℚ)
    (period : String) (description : Option String) (now : Nat)
    (hreach : Reachable db) (hb : b ∈ db.budgets) (hcat : b.category ≠ "")
    (hamt : 0 < amount) :
    ∃ db', set_budget b.category amount period description now db =
        .ok db' ∧
      db'.budgets.filter (fun x => x.category = b.category) =
        [⟨db.nextBudgetId, b.category, amount, period, description,
          now, now⟩] ∧
      db.nextBudgetId ≠ b.id ∧
      delete_budget b.id db' = .error .notFoundError := by
  obtain ⟨_, HB, _, HNB⟩ := reachable_inv hreach
  have hcond : ¬ (b.category = "" ∨ amount ≤ 0) := by
    push_neg
    exact ⟨hcat, hamt⟩
  have hidlt : b.id < db.nextBudgetId := (HB b hb).2
  refine ⟨{ db with budgets := (db.budgets.filter
        (fun x => x.category ≠ b.category) ++
        [⟨db.nextBudgetId, b.category, amount, period, description,
          now, now⟩]), nextBudgetId := db.nextBudgetId + 1 },
    by unfold set_budget; rw [if_neg hcond], ?_, ne_of_gt hidlt, ?_⟩
  · rw [List.filter_append, filter_eq_of_filter_ne]
    simp
  · have hall : ∀ x ∈ db.budgets.filter
        (fun x => x.category ≠ b.category) ++
        [(⟨db.nextBudgetId, b.category, amount, period, description,
          now, now⟩ : Budget)], x.id ≠ b.id := by
      intro x hx
      rcases List.mem_append.mp hx with hx | hx
      · have hxmem := List.mem_of_mem_filter hx
        have hxcat := (List.mem_filter.mp hx).2
        intro hco
        have hxb : x = b := nodup_map_inj HNB hxmem hb hco
        subst hxb
        simp at hxcat
      · rcases List.mem_singleton.mp hx with rfl
        exact ne_of_gt hidlt
    unfold delete_budget
    rw [if_pos hall]

/-- Witness for C10: upserting "Food" over an existing "Food" budget row. -/
theorem set_budget_fresh_id_witness :
    ∃ db', set_budget "Food" 50 "Weekly" none 7
        ⟨[], [⟨1, "Food", 100, "Monthly", none, 0, 0⟩], 1, 2⟩ = .ok db' ∧
      db'.budgets.filter (fun x => x.category = "Food") =
        [⟨2, "Food", 50, "Weekly", none, 7, 7⟩] ∧
      (2 : Nat) ≠ 1 ∧
      delete_budget 1 db' = .error .notFoundError :=
  set_budget_fresh_id ⟨[], [⟨1, "Food", 100, "Monthly", none, 0, 0⟩], 1, 2⟩
    ⟨1, "Food", 100, "Monthly", none, 0, 0⟩ 50 "Weekly" none 7
    (Reachable.budget_ok Reachable.init
      (by rfl : set_budget "Food" 100 "Monthly" none 0 init_db =
        Except.ok ⟨[], [⟨1, "Food", 100, "Monthly", none, 0, 0⟩], 1, 2⟩))
    (by simp) (by decide) (by norm_num)

theorem foldl_min_mem (l : List ℚ) (a : ℚ) :
    l.foldl min a = a ∨ l.foldl min a ∈ l := by
  induction l generalizing a with
  | nil => exact Or.inl rfl
  | cons x t ih =>
    rw [List.foldl_cons]
    rcases ih (min a x) with h | h
    · rcases min_choice a x with hm | hm
      · exact Or.inl (by rw [h, hm])
      · exact Or.inr (by rw [h, hm]; exact List.mem_cons_self _ _)
    · exact Or.inr (List.mem_cons_of_mem _ h)

theorem foldl_min_le (l : List ℚ) (a : ℚ) :
    l.foldl min a ≤ a ∧ ∀ x ∈ l, l.foldl min a ≤ x := by
  induction l generalizing a with
  | nil =>
    refine ⟨le_refl a, ?_⟩
    intro x hx
    cases hx
  | cons y t ih =>
    rw [List.foldl_cons]
    refine ⟨le_trans (ih (min a y)).1 (min_le_left a y), ?_⟩
    intro x hx
    rcases List.mem_cons.mp hx with rfl | hx
    · exact le_trans (ih (min a x)).1 (min_le_right a x)
    · exact (ih (min a y)).2 x hx

theorem foldl_max_mem (l : List ℚ) (a : ℚ) :
    l.foldl max a = a ∨ l.foldl max a ∈ l := by
  induction l generalizing a with
  | nil => exact Or.inl rfl
  | cons x t ih =>
    rw [List.foldl_cons]
    rcases ih (max a x) with h | h
    · rcases max_choice a x with hm | hm
      · exact Or.inl (by rw [h, hm])
      · exact Or.inr (by rw [h, hm]; exact List.mem_cons_self _ _)
    · exact Or.inr (List.mem_cons_of_mem _ h)

theorem foldl_max_ge (l : List ℚ) (a : ℚ) :
    a ≤ l.foldl max a ∧ ∀ x ∈ l, x ≤ l.foldl max a := by
  induction l generalizing a with
  | nil =>
    refine ⟨le_refl a, ?_⟩
    intro x hx
    cases hx
  | cons y t ih =>
    rw [List.foldl_cons]
    refine ⟨le_trans (le_max_left a y) (ih (max a y)).1, ?_⟩
    intro x hx
    rcases List.mem_cons.mp hx with rfl | hx
    · exact le_trans (le_max_right a x) (ih (max a x)).1
    · exact (ih (max a y)).2 x hx

theorem listMin_spec (l : List ℚ) (h : l ≠ []) :
    listMin l ∈ l ∧ ∀ x ∈ l, listMin l ≤ x := by
  match l with
  | [] => exact absurd rfl h
  | a :: t =>
    simp only [listMin]
    constructor
    · rcases foldl_min_mem t a with h1 | h1
      · rw [h1]
        exact List.mem_cons_self _ _
      · exact List.mem_cons_of_mem _ h1
    · intro x hx
      rcases List.mem_cons.mp hx with rfl | hx
      · exact (foldl_min_le t x).1
      · exact (foldl_min_le t a).2 x hx

theorem listMax_spec (l : List ℚ) (h : l ≠ []) :
    listMax l ∈ l ∧ ∀ x ∈ l, x ≤ listMax l := by
  match l with
  | [] => exact absurd rfl h
  | a :: t =>
    simp only [listMax]
    constructor
    · rcases foldl_max_mem t a with h1 | h1
      · rw [h1]
        exact List.mem_cons_self _ _
      · exact List.mem_cons_of_mem _ h1
    · intro x hx
      rcases List.mem_cons.mp hx with rfl | hx
      · exact (foldl_max_ge t x).1
      · exact (foldl_max_ge t a).2 x hx

theorem nodup_filter_eq_single {l : List String} (hnd : l.Nodup)
    (c : String) : l.filter (fun x => x = c) = if c ∈ l then [c] else [] := by
  induction l with
  | nil => simp
  | cons x t ih =>
    rw [List.nodup_cons] at hnd
    obtain ⟨hx, hnd⟩ := hnd
    by_cases hxc : x = c
    · subst hxc
      rw [List.filter_cons, if_pos (by simp), if_pos (List.mem_cons_self x t)]
      have ht : t.filter (fun y => y = x) = [] := by
        rw [List.filter_eq_nil_iff]
        intro y hy
        simp only [decide_eq_true_eq]
        intro hco
        exact hx (hco ▸ hy)
      rw [ht]
    · rw [List.filter_cons, if_neg (by simp [hxc]), ih hnd]
      by_cases hct : c ∈ t
      · rw [if_pos hct, if_pos (List.mem_cons_of_mem x hct)]
      · rw [if_neg hct, if_neg ?_]
        intro hco
        rcases List.mem_cons.mp hco with h | h
        · exact hxc h.symm
        · exact hct h

/-- C7: for every combination of optional start and end dates,
`get_expense_summary` groups the in-range expenses by category — exactly one
row per category present —, each row carrying the group's transaction count,
total, average, minimum and maximum amount, the rows ordered by total_amount
descending; both date bounds are inclusive: an expense dated exactly on a
bound is kept while one dated one day outside it is dropped. -/
theorem get_expense_summary_correct (start_date end_date : Option Int)
    (db : DB) :
    List.Sorted summaryOrder (get_expense_summary start_date end_date db) ∧
    (∀ c, ((get_expense_summary start_date end_date db).filter
        (fun r => r.category = c)).length =
      if c ∈ (filterByRange start_date end_date db).map (·.category)
      then 1 else 0) ∧
    (∀ r ∈ get_expense_summary start_date end_date db,
      groupAmounts start_date end_date db r.category ≠ [] ∧
      r.transaction_count =
        (groupAmounts start_date end_date db r.category).length ∧
      r.total_amount =
        (groupAmounts start_date end_date db r.category).sum ∧
      r.avg_amount *
          ((groupAmounts start_date end_date db r.category).length : ℚ) =
        (groupAmounts start_date end_date db r.category).sum ∧
      r.min_amount ∈ groupAmounts start_date end_date db r.category ∧
      (∀ a ∈ groupAmounts start_date end_date db r.category,
        r.min_amount ≤ a) ∧
      r.max_amount ∈ groupAmounts start_date end_date db r.category ∧
      (∀ a ∈ groupAmounts start_date end_date db r.category,
        a ≤ r.max_amount)) ∧
    (∀ x ∈ db.expenses, ∀ s e : Int, s ≤ e →
      ((x.date = s ∨ x.date = e) →
        x ∈ filterByRange (some s) (some e) db) ∧
      ((x.date = s - 1 ∨ x.date = e + 1) →
        x ∉ filterByRange (some s) (some e) db)) ∧
    (∀ x ∈ db.expenses, ∀ s : Int,
      (x.date = s →
        x ∈ filterByRange (some s) none db ∧
        x ∈ filterByRange none (some s) db) ∧
      (x.date = s - 1 → x ∉ filterByRange (some s) none db) ∧
      (x.date = s + 1 → x ∉ filterByRange none (some s) db)) ∧
    (∀ x ∈ db.expenses, x ∈ filterByRange none none db) := by
  set rows := filterByRange start_date end_date db with hrows
  set cats := (rows.map (·.category)).dedup with hcats
  have hval : get_expense_summary start_date end_date db =
      List.insertionSort summaryOrder (cats.map (summaryRowFor rows)) := rfl
  refine ⟨List.sorted_insertionSort _ _, ?_, ?_, ?_, ?_, ?_⟩
  · intro c
    rw [hval]
    have hfp := (List.perm_insertionSort summaryOrder
      (cats.map (summaryRowFor rows))).filter
        (fun r => decide (r.category = c))
    rw [hfp.length_eq, List.filter_map, List.length_map]
    have hcomp : ((fun r : SummaryRow => decide (r.category = c)) ∘
        summaryRowFor rows) = (fun x => decide (x = c)) := rfl
    rw [hcomp]
    rw [nodup_filter_eq_single (List.nodup_dedup _) c]
    by_cases hc : c ∈ rows.map (·.category)
    · rw [if_pos (List.mem_dedup.mpr hc), if_pos hc]
      rfl
    · rw [if_neg (fun hco => hc (List.mem_dedup.mp hco)), if_neg hc]
      rfl
  · intro r hr
    rw [hval] at hr
    have hr2 := (List.perm_insertionSort summaryOrder
      (cats.map (summaryRowFor rows))).mem_iff.mp hr
    rcases List.mem_map.mp hr2 with ⟨c, hcmem, rfl⟩
    have hcmem2 : c ∈ rows.map (·.category) := List.mem_dedup.mp hcmem
    rcases List.mem_map.mp hcmem2 with ⟨x, hx, hxc⟩
    have hamts : groupAmounts start_date end_date db c ≠ [] :=
      List.ne_nil_of_mem (List.mem_map_of_mem (fun z => z.amount)
        (List.mem_filter.mpr ⟨hx, by simp [hxc]⟩))
    have hlen : (((groupAmounts start_date end_date db c).length : ℚ)) ≠ 0 :=
      Nat.cast_ne_zero.mpr
        (fun h0 => hamts (List.length_eq_zero.mp h0))
    exact ⟨hamts, rfl, rfl, div_mul_cancel₀ _ hlen,
      (listMin_spec _ hamts).1, (listMin_spec _ hamts).2,
      (listMax_spec _ hamts).1, (listMax_spec _ hamts).2⟩
  · intro x hx s e hse
    constructor
    · intro hd
      simp only [filterByRange, List.mem_filter]
      refine ⟨hx, ?_⟩
      simp only [inDateRange, Bool.and_eq_true, decide_eq_true_eq]
      rcases hd with h | h <;> omega
    · intro hd hmem
      have h2 := (List.mem_filter.mp hmem).2
      simp only [inDateRange, Bool.and_eq_true, decide_eq_true_eq] at h2
      rcases hd with h | h <;> omega
  · intro x hx s
    refine ⟨?_, ?_, ?_⟩
    · intro hd
      constructor <;>
        · simp only [filterByRange, List.mem_filter]
          refine ⟨hx, ?_⟩
          simp only [inDateRange, decide_eq_true_eq]
          omega
    · intro hd hmem
      have h2 := (List.mem_filter.mp hmem).2
      simp only [inDateRange, decide_eq_true_eq] at h2
      omega
    · intro hd hmem
      have h2 := (List.mem_filter.mp hmem).2
      simp only [inDateRange, decide_eq_true_eq] at h2
      omega
  · intro x hx
    simp only [filterByRange, List.mem_filter]
    exact ⟨hx, rfl⟩

/-- Witness for C7: a concrete expense on and just outside the bounds. -/
theorem get_expense_summary_correct_witness :
    (⟨1, "Coffee", 5, "Food", 3, none, 0⟩ : Expense) ∈
      filterByRange (some 3) (some 4)
        ⟨[⟨1, "Coffee", 5, "Food", 3, none, 0⟩], [], 2, 1⟩ ∧
    (⟨1, "Coffee", 5, "Food", 3, none, 0⟩ : Expense) ∉
      filterByRange (some 4) (some 5)
        ⟨[⟨1, "Coffee", 5, "Food", 3, none, 0⟩], [], 2, 1⟩ :=
  ⟨(((get_expense_summary_correct (some 3) (some 4)
      ⟨[⟨1, "Coffee", 5, "Food", 3, none, 0⟩], [], 2, 1⟩).2.2.2.1
      ⟨1, "Coffee", 5, "Food", 3, none, 0⟩ (by simp) 3 4 (by norm_num)).1
      (Or.inl rfl)),
    (((get_expense_summary_correct (some 4) (some 5)
      ⟨[⟨1, "Coffee", 5, "Food", 3, none, 0⟩], [], 2, 1⟩).2.2.2.1
      ⟨1, "Coffee", 5, "Food", 3, none, 0⟩ (by simp) 4 5 (by norm_num)).2
      (Or.inl (by norm_num)))⟩

theorem bool_eq_of_iff {a b : Bool} (h : a = true ↔ b = true) : a = b := by
  cases a <;> cases b <;> simp_all

theorem mem_sfx : ∀ (s x : List Char), x ∈ sfx s ↔ ∃ u, u ++ x = s := by
  intro s
  induction s with
  | nil =>
    intro x
    constructor
    · intro hx
      rcases List.mem_singleton.mp hx with rfl
      exact ⟨[], rfl⟩
    · rintro ⟨u, hu⟩
      rcases (List.append_eq_nil.mp hu).2 with rfl
      exact List.mem_singleton.mpr rfl
  | cons c s ih =>
    intro x
    simp only [sfx, List.mem_cons]
    constructor
    · rintro (rfl | hx)
      · exact ⟨[], rfl⟩
      · obtain ⟨u, hu⟩ := (ih x).mp hx
        exact ⟨c :: u, by rw [List.cons_append, hu]⟩
    · rintro ⟨u, hu⟩
      cases u with
      | nil =>
        rw [List.nil_append] at hu
        exact Or.inl hu
      | cons b u =>
        rw [List.cons_append] at hu
        injection hu with h1 h2
        exact Or.inr ((ih x).mpr ⟨u, h2⟩)

theorem like_pct (p : List Char) (s : List Char) :
    like ('%' :: p) s = (sfx s).any (like p) := by
  simp [like]

theorem like_pct_nil (s : List Char) : like ['%'] s = true := by
  rw [like_pct, List.any_eq_true]
  refine ⟨[], (mem_sfx s []).mpr ⟨s, List.append_nil s⟩, rfl⟩

theorem like_cons_lit (c : Char) (hc1 : c ≠ '%') (hc2 : c ≠ '_')
    (p : List Char) (s : List Char) :
    like (c :: p) s =
      match s with
      | [] => false
      | d :: s' => charEqCI c d && like p s' := by
  simp only [like, if_neg hc1, if_neg hc2]

theorem like_lit_iff : ∀ (t : List Char),
    (∀ c ∈ t, c ≠ '%' ∧ c ≠ '_') → ∀ (p : List Char) (s : List Char),
    (like (t ++ p) s = true ↔
      startsWithCI t s = true ∧ like p (s.drop t.length) = true) := by
  intro t
  induction t with
  | nil =>
    intro _ p s
    simp [startsWithCI]
  | cons c t ih =>
    intro hw p s
    obtain ⟨hc1, hc2⟩ := hw c (List.mem_cons_self c t)
    have hw2 : ∀ x ∈ t, x ≠ '%' ∧ x ≠ '_' :=
      fun x hx => hw x (List.mem_cons_of_mem c hx)
    cases s with
    | nil =>
      rw [List.cons_append, like_cons_lit c hc1 hc2]
      simp [startsWithCI]
    | cons d s' =>
      rw [List.cons_append, like_cons_lit c hc1 hc2]
      simp only [startsWithCI, List.length_cons, List.drop_succ_cons,
        Bool.and_eq_true]
      rw [ih hw2 p s']
      tauto

theorem like_term_iff (t : List Char) (hw : ∀ c ∈ t, c ≠ '%' ∧ c ≠ '_')
    (s : List Char) :
    like ('%' :: (t ++ ['%'])) s = true ↔ hasSubCI t s = true := by
  rw [like_pct, List.any_eq_true]
  unfold hasSubCI
  rw [List.any_eq_true]
  constructor
  · rintro ⟨x, hx, hlx⟩
    rw [like_lit_iff t hw ['%'] x] at hlx
    exact ⟨x, hx, hlx.1⟩
  · rintro ⟨x, hx, hsx⟩
    exact ⟨x, hx, (like_lit_iff t hw ['%'] x).mpr ⟨hsx, like_pct_nil _⟩⟩

theorem rowMatches_eq_rowContainsCI (term : String)
    (hw : ∀ c ∈ term.data, c ≠ '%' ∧ c ≠ '_') (e : Expense) :
    rowMatches term e = rowContainsCI term e := by
  have hlike : ∀ s : String, likeMatch term s = containsCI term s := by
    intro s
    exact bool_eq_of_iff (like_term_iff term.data hw s.data)
  unfold rowMatches rowContainsCI
  cases e.notes with
  | none => simp only [hlike]
  | some n => simp only [hlike]

/-- The case-insensitive prefix test is ASCII-case-folded list equality on an
initial segment: `startsWithCI t s` holds exactly when lowering both sides
makes `t` an initial segment of `s`. -/
theorem startsWithCI_iff : ∀ (t s : List Char),
    (startsWithCI t s = true ↔
      ∃ r, s.map Char.toLower = t.map Char.toLower ++ r) := by
  intro t
  induction t with
  | nil =>
    intro s
    simp [startsWithCI]
  | cons a t ih =>
    intro s
    cases s with
    | nil =>
      simp [startsWithCI]
    | cons b s' =>
      simp only [startsWithCI, Bool.and_eq_true, List.map_cons,
        List.cons_append, List.cons.injEq, charEqCI, beq_iff_eq]
      rw [ih s']
      constructor
      · rintro ⟨h1, r, h2⟩
        exact ⟨r, h1.symm, h2⟩
      · rintro ⟨r, h1, h2⟩
        exact ⟨h1.symm, r, h2⟩

/-- `hasSubCI t s` is case-insensitive substring containment: lowering both
sides, `t` occurs contiguously inside `s`. -/
theorem hasSubCI_iff (t s : List Char) :
    hasSubCI t s = true ↔
      ∃ u v, s.map Char.toLower =
        u ++ t.map Char.toLower ++ v := by
  unfold hasSubCI
  rw [List.any_eq_true]
  constructor
  · rintro ⟨x, hx, hsx⟩
    obtain ⟨u, hu⟩ := (mem_sfx s x).mp hx
    obtain ⟨r, hr⟩ := (startsWithCI_iff t x).mp hsx
    refine ⟨u.map Char.toLower, r, ?_⟩
    rw [← hu, List.map_append, hr, List.append_assoc]
  · rintro ⟨u, v, huv⟩
    refine ⟨s.drop u.length, (mem_sfx s (s.drop u.length)).mpr
      ⟨s.take u.length, List.take_append_drop u.length s⟩, ?_⟩
    rw [startsWithCI_iff]
    refine ⟨v, ?_⟩
    rw [List.map_drop, huv, List.append_assoc, List.drop_left]

/-- C8 counterexample: the claim reads `search` as a case-insensitive
substring match for every term, but `search_expenses` builds a SQL `LIKE`
pattern without escaping, so a term containing the wildcard `_` matches
expenses none of whose fields contain the term as a substring: searching
"a_c" returns the expense described "abc". -/
theorem search_expenses_substring_claim_false :
    (⟨1, "abc", 5, "Misc", 0, none, 0⟩ : Expense) ∈
      search_expenses "a_c"
        ⟨[⟨1, "abc", 5, "Misc", 0, none, 0⟩], [], 2, 1⟩ ∧
    rowContainsCI "a_c" ⟨1, "abc", 5, "Misc", 0, none, 0⟩ = false := by
  decide

/-- C8 (amended): for every search term free of the SQL LIKE wildcard
characters `%` and `_`, `search_expenses` returns exactly the expenses whose
description, notes or category contains the term as a case-insensitive
substring (logical OR over the three fields), sorted by the same ordering as
`get_expenses`; an empty term returns exactly `get_expenses`. -/
theorem search_expenses_correct (term : String) (db : DB)
    (hw : ∀ c ∈ term.data, c ≠ '%' ∧ c ≠ '_') :
    (term = "" → search_expenses term db = get_expenses db false) ∧
    (term ≠ "" →
      List.Perm (search_expenses term db)
        (db.expenses.filter (rowContainsCI term)) ∧
      List.Sorted expenseOrder (search_expenses term db) ∧
      (∀ e, e ∈ search_expenses term db ↔
        e ∈ db.expenses ∧ rowContainsCI term e = true)) := by
  constructor
  · intro h
    unfold search_expenses
    rw [if_pos h]
  · intro h
    have hval : search_expenses term db = List.insertionSort expenseOrder
        (db.expenses.filter (rowMatches term)) := by
      unfold search_expenses
      rw [if_neg h]
    have hfeq : db.expenses.filter (rowMatches term) =
        db.expenses.filter (rowContainsCI term) :=
      List.filter_congr
        (fun e _ => by rw [rowMatches_eq_rowContainsCI term hw e])
    rw [hval, hfeq]
    refine ⟨List.perm_insertionSort _ _, List.sorted_insertionSort _ _, ?_⟩
    intro e
    rw [(List.perm_insertionSort expenseOrder _).mem_iff, List.mem_filter]

/-- Witness for C8 (amended) at a concrete term and database. -/
theorem search_expenses_correct_witness :
    search_expenses ""
      ⟨[⟨1, "abc", 5, "Misc", 0, none, 0⟩], [], 2, 1⟩ =
      get_expenses ⟨[⟨1, "abc", 5, "Misc", 0, none, 0⟩], [], 2, 1⟩ false ∧
    ((⟨1, "abc", 5, "Misc", 0, none, 0⟩ : Expense) ∈
        search_expenses "AB"
          ⟨[⟨1, "abc", 5, "Misc", 0, none, 0⟩], [], 2, 1⟩ ↔
      (⟨1, "abc", 5, "Misc", 0, none, 0⟩ : Expense) ∈
          (⟨[⟨1, "abc", 5, "Misc", 0, none, 0⟩], [], 2, 1⟩ : DB).expenses ∧
        rowContainsCI "AB" ⟨1, "abc", 5, "Misc", 0, none, 0⟩ = true) :=
  ⟨(search_expenses_correct ""
      ⟨[⟨1, "abc", 5, "Misc", 0, none, 0⟩], [], 2, 1⟩ (by decide)).1 rfl,
    ((search_expenses_correct "AB"
      ⟨[⟨1, "abc", 5, "Misc", 0, none, 0⟩], [], 2, 1⟩ (by decide)).2
      (by decide)).2.2 ⟨1, "abc", 5, "Misc", 0, none, 0⟩⟩

end GastoTrack
